import Mathlib

/-!
# Verification of the Rest-Mex visualization pipeline

Shallow embedding of `src/visualizacion.js` (the `FoliumMexicoMap`
component): CSV row validation (`handleFileUpload`), aggregation and view
projection (`processData`), and the numeric marker attributes of
`generateFoliumMap`.

Modelling conventions:
* A parsed CSV cell (after PapaParse with `dynamicTyping: true`) is a
  `JSVal`: `null`, a missing property (`undefined`), a number (exact
  rational, idealizing IEEE doubles), or a string.  `dynamicTyping`
  converts numeric strings to numbers, so a string reaching a numeric
  comparison is non-numeric and compares like `NaN` (both `>=` and `<=`
  are false).
* A `RawRow` is an association list from column names to values;
  `getField` is JavaScript property access (missing key gives
  `undefined`).
* JavaScript objects used as dictionaries (`grouped`,
  `processedForPolarity`, the lookup tables) are association lists with
  first-occurrence lookup and update-in-place-or-append semantics, which
  matches JS property-write ordering.  Bucket count keys are kept as the
  rational polarity value itself; JS coerces the key to its decimal
  string, and that coercion is injective on numbers, so the keying is
  isomorphic.
* `toFixed(1)` is modelled as exact rational rounding to one decimal
  (round half up), the idealization of the float computation.
-/

set_option maxRecDepth 40000

/-- A JavaScript value as it appears in a parsed CSV row. -/
inductive JSVal where
  | vnull
  | vundef
  | vnum (q : ℚ)
  | vstr (s : String)
deriving DecidableEq

/-- JavaScript truthiness of a `JSVal`. -/
def JSVal.truthy : JSVal → Bool
  | .vnull => false
  | .vundef => false
  | .vnum q => q != 0
  | .vstr s => s != ""

/-- JavaScript `ToNumber`, `none` meaning `NaN`.  Strings reaching this in
the pipeline are non-numeric (see module comment), so they give `NaN`. -/
def JSVal.toNum? : JSVal → Option ℚ
  | .vnull => some 0
  | .vundef => none
  | .vnum q => some q
  | .vstr _ => none

/-- JavaScript `v >= q` (false on `NaN`). -/
def JSVal.geNum (v : JSVal) (q : ℚ) : Bool :=
  match v.toNum? with
  | some x => q ≤ x
  | none => false

/-- JavaScript `v <= q` (false on `NaN`). -/
def JSVal.leNum (v : JSVal) (q : ℚ) : Bool :=
  match v.toNum? with
  | some x => x ≤ q
  | none => false

/-- JavaScript string coercion of a value used as an object key.  Numbers
stringify injectively; the exact digits of non-integer rationals are not
observable in any claim. -/
def JSVal.asKey : JSVal → String
  | .vnull => "null"
  | .vundef => "undefined"
  | .vnum q => toString q
  | .vstr s => s

/-- A parsed CSV row: column name to value. -/
abbrev RawRow := List (String × JSVal)

/-- JavaScript property access `row[k]` (missing gives `undefined`). -/
def getField : RawRow → String → JSVal
  | [], _ => .vundef
  | e :: rest, k => if e.1 = k then e.2 else getField rest k

/-- Generic association-list lookup, first occurrence wins
(JS property read). -/
def assocGet? {κ α : Type} [DecidableEq κ] : List (κ × α) → κ → Option α
  | [], _ => none
  | e :: rest, k => if e.1 = k then some e.2 else assocGet? rest k

/-- Generic association-list write: replaces the first occurrence in
place, else appends (JS property write keeps key insertion order). -/
def assocSet {κ α : Type} [DecidableEq κ] : List (κ × α) → κ → α → List (κ × α)
  | [], k, v => [(k, v)]
  | e :: rest, k, v => if e.1 = k then (k, v) :: rest else e :: assocSet rest k v

/-- `requiredColumns` of `handleFileUpload` (line 93). -/
def requiredColumns : List String :=
  ["Title", "Review", "Polarity", "Town", "Region", "Type"]

/-- The per-row filter of `handleFileUpload` (lines 102-107):
`row.Region && row.Polarity && row.Polarity >= 1 && row.Polarity <= 5`. -/
def rowIsValid (row : RawRow) : Bool :=
  (getField row "Region").truthy &&
  (getField row "Polarity").truthy &&
  (getField row "Polarity").geNum 1 &&
  (getField row "Polarity").leNum 5

/-- `Object.keys(results.data[0] || {})` (line 94). -/
def headerKeys (rows : List RawRow) : List String :=
  (rows.head?.getD []).map Prod.fst

/-- `requiredColumns.filter(col => !headers.includes(col))` (line 95). -/
def missingColumns (rows : List RawRow) : List String :=
  requiredColumns.filter (fun c => ¬ (headerKeys rows).contains c)

/-- `results.data.filter(...)` (lines 102-107). -/
def filterValid (rows : List RawRow) : List RawRow :=
  rows.filter rowIsValid

/-- The component state touched by the upload path: `csvData`,
`fileLoaded`, `loading`, `error`.  (`processedData` and `stats` are
derived from `csvData` and `selectedPolarity` by the `useEffect` at
lines 132-136, modelled by the pure `processData` below.) -/
structure Session where
  csvData : List RawRow
  fileLoaded : Bool
  loading : Bool
  error : String
deriving DecidableEq

/-- Initial component state (lines 6-12). -/
def initialSession : Session :=
  { csvData := [], fileLoaded := false, loading := false, error := "" }

/-- One complete run of `handleFileUpload`'s `complete` callback
(lines 83-123) on a successfully parsed row list, starting from state `s`:
`setLoading(true); setError('')`, then column validation, row filtering,
and either commit (`setCsvData`, `setFileLoaded(true)`) or
`setError(message)`, with `setLoading(false)` at the end. -/
def uploadComplete (s : Session) (rows : List RawRow) : Session :=
  let s1 : Session := { s with loading := true, error := "" }
  let missing := missingColumns rows
  if missing ≠ [] then
    { s1 with
        error := "Columnas faltantes: " ++ String.intercalate ", " missing
        loading := false }
  else
    let validData := filterValid rows
    if validData = [] then
      { s1 with
          error := "No se encontraron datos válidos en el CSV"
          loading := false }
    else
      { s1 with csvData := validData, fileLoaded := true, loading := false }

/-- A per-region polarity bucket `{1:0,2:0,3:0,4:0,5:0,total:0}`
(line 146); the five numeric keys are the count association list, `total`
a separate field (the keys cannot collide). -/
structure Bucket where
  counts : List (ℚ × ℕ)
  total : ℕ
deriving DecidableEq

/-- The freshly allocated bucket of line 146. -/
def Bucket.init : Bucket :=
  { counts := [(1, 0), (2, 0), (3, 0), (4, 0), (5, 0)], total := 0 }

/-- `bucket[p] || 0`: the stored count, 0 when the key is absent. -/
def lookupCount (cs : List (ℚ × ℕ)) (p : ℚ) : ℕ :=
  (assocGet? cs p).getD 0

/-- `acc[region][polarity] = (acc[region][polarity] || 0) + 1;
acc[region].total += 1` (lines 149-150). -/
def Bucket.bump (b : Bucket) (p : ℚ) : Bucket :=
  { counts := assocSet b.counts p (lookupCount b.counts p + 1)
    total := b.total + 1 }

/-- The raw grouping key of a row: `row.Region` coerced to an object
key (line 142, used as `acc[region]`). -/
def rowKey (row : RawRow) : String :=
  (getField row "Region").asKey

/-- The polarity of a row as a number (line 143).  Every row kept by
`rowIsValid` has a numeric `Polarity` field, and `processData` only ever
runs on validated `csvData`, so the default `0` branch is unreachable in
the pipeline. -/
def rowPol (row : RawRow) : ℚ :=
  match getField row "Polarity" with
  | .vnum q => q
  | _ => 0

/-- One step of the `csvData.reduce` of lines 141-153: fetch (or
allocate) the bucket for `row.Region` and bump it at `row.Polarity`. -/
def aggStep (acc : List (String × Bucket)) (row : RawRow) : List (String × Bucket) :=
  assocSet acc (rowKey row)
    (((assocGet? acc (rowKey row)).getD Bucket.init).bump (rowPol row))

/-- `const grouped = csvData.reduce(..., {})` (lines 141-153). -/
def aggregate (rows : List RawRow) : List (String × Bucket) :=
  rows.foldl aggStep []

/-- Count stored for region `k` at polarity `p` in a grouped map
(0 when the region has no bucket, since the fresh bucket is all zeroes). -/
def aggCount (g : List (String × Bucket)) (k : String) (p : ℚ) : ℕ :=
  lookupCount ((assocGet? g k).getD Bucket.init).counts p

/-- Total stored for region `k` in a grouped map (0 when absent). -/
def aggTotal (g : List (String × Bucket)) (k : String) : ℕ :=
  ((assocGet? g k).getD Bucket.init).total

/-- `stateMapping` (lines 16-36). -/
def stateMapping : List (String × String) :=
  [("QuintanaRoo", "Quintana Roo"),
   ("Estado_de_Mexico", "Estado de México"),
   ("Baja_CaliforniaSur", "Baja California Sur"),
   ("San_Luis_Potosi", "San Luis Potosí"),
   ("Michoacan", "Michoacán"),
   ("Queretaro", "Querétaro"),
   ("Yucatan", "Yucatán"),
   ("Nayarit", "Nayarit"),
   ("Chiapas", "Chiapas"),
   ("Chihuahua", "Chihuahua"),
   ("Guerrero", "Guerrero"),
   ("Puebla", "Puebla"),
   ("Jalisco", "Jalisco"),
   ("Coahuila", "Coahuila"),
   ("Veracruz", "Veracruz"),
   ("Hidalgo", "Hidalgo"),
   ("Morelos", "Morelos"),
   ("Oaxaca", "Oaxaca"),
   ("Guanajuato", "Guanajuato")]

/-- A four-decimal coordinate literal `n / 10000`, written as an exact
rational (`21.1619` is `dec4 211619`, and so on). -/
def dec4 (n : ℤ) : ℚ := Rat.divInt n 10000

/-- `stateCoordinates` (lines 39-59). -/
def stateCoordinates : List (String × (ℚ × ℚ)) :=
  [("Quintana Roo", (dec4 211619, dec4 (-868515))),
   ("Estado de México", (dec4 194326, dec4 (-996795))),
   ("Baja California Sur", (dec4 241442, dec4 (-1103005))),
   ("San Luis Potosí", (dec4 221565, dec4 (-1009855))),
   ("Michoacán", (dec4 197007, dec4 (-1011884))),
   ("Querétaro", (dec4 205888, dec4 (-1003899))),
   ("Yucatán", (dec4 209674, dec4 (-895926))),
   ("Nayarit", (dec4 217514, dec4 (-1048455))),
   ("Chiapas", (dec4 167569, dec4 (-931292))),
   ("Chihuahua", (dec4 286353, dec4 (-1060889))),
   ("Guerrero", (dec4 174391, dec4 (-995451))),
   ("Puebla", (dec4 190414, dec4 (-982063))),
   ("Jalisco", (dec4 206597, dec4 (-1033496))),
   ("Coahuila", (dec4 254232, dec4 (-1010053))),
   ("Veracruz", (dec4 191738, dec4 (-961342))),
   ("Hidalgo", (dec4 200911, dec4 (-987624))),
   ("Morelos", (dec4 186813, dec4 (-991013))),
   ("Oaxaca", (dec4 170732, dec4 (-967266))),
   ("Guanajuato", (dec4 210190, dec4 (-1012574)))]

/-- `stateMapping[region] || region` (line 161): canonicalization with
identity fallback. -/
def standardNameOf (region : String) : String :=
  (assocGet? stateMapping region).getD region

/-- The percentage `(count / total) * 100` rounded to one decimal, in
tenths of a percent: `round (count / total * 100 * 10)`, written with
integer division so it computes in the kernel; `pctTenths_eq_round` below
proves it equal to the `round` formula. -/
def pctTenths (count total : ℕ) : ℤ :=
  (2000 * (count : ℤ) + (total : ℤ)) / (2 * (total : ℤ))

/-- The rounded percentage as a rational (the numeric value rendered by
`pctString`). -/
def pctVal (count total : ℕ) : ℚ :=
  ((round ((count : ℚ) / total * 100 * 10) : ℤ) : ℚ) / 10

/-- `polarityData.total > 0 ? ((count / polarityData.total) * 100).toFixed(1) : '0.0'`
(line 170): the rounded value rendered with exactly one digit after the
decimal point (`toFixed(1)` idealized to exact rational rounding). -/
def pctString (count total : ℕ) : String :=
  if 0 < total then
    toString (pctTenths count total / 10) ++ "." ++
      toString (pctTenths count total % 10)
  else "0.0"

/-- One entry of `processedForPolarity` (lines 166-173). -/
structure ViewRow where
  originalName : String
  count : ℕ
  total : ℕ
  percentage : String
  coordinates : ℚ × ℚ
  allPolarities : Bucket
deriving DecidableEq

/-- The `stats` record (lines 181-185). -/
structure Stats where
  totalStates : ℕ
  totalReviews : ℕ
  maxCount : ℕ
deriving DecidableEq

/-- The object literal assigned at lines 166-173.  `allPolarities` is
`{ ...polarityData }`, a copy of the whole bucket. -/
def mkView (region : String) (b : Bucket) (sp : ℚ) (coords : ℚ × ℚ) : ViewRow :=
  { originalName := region
    count := lookupCount b.counts sp
    total := b.total
    percentage := pctString (lookupCount b.counts sp) b.total
    coordinates := coords
    allPolarities := b }

/-- The running projection state: `processedForPolarity`, `maxCount`,
`totalReviews` (lines 156-158). -/
abbrev ProjState := List (String × ViewRow) × ℕ × ℕ

/-- One iteration of the `Object.entries(grouped).forEach` loop
(lines 160-178). -/
def projStep (sp : ℚ) (st : ProjState) (e : String × Bucket) : ProjState :=
  match assocGet? stateCoordinates (standardNameOf e.1) with
  | some coordinates =>
      (assocSet st.1 (standardNameOf e.1) (mkView e.1 e.2 sp coordinates),
       max st.2.1 (lookupCount e.2.counts sp),
       st.2.2 + lookupCount e.2.counts sp)
  | none => st

/-- The projection loop of `processData`: fold the `forEach` of
lines 160-178 over the grouped map, starting from the empty
`processedForPolarity` and `maxCount = totalReviews = 0`
(lines 156-158). -/
def projFold (csvData : List RawRow) (sp : ℚ) : ProjState :=
  (aggregate csvData).foldl (projStep sp) ([], 0, 0)

/-- `processData` (lines 138-193): group `csvData`, project for the
selected polarity, and derive the stats record (lines 180-185). -/
def processData (csvData : List RawRow) (sp : ℚ) :
    List (String × ViewRow) × Stats :=
  ((projFold csvData sp).1,
   { totalStates := (projFold csvData sp).1.length
     totalReviews := (projFold csvData sp).2.2
     maxCount := (projFold csvData sp).2.1 })

/-- The numeric attributes of one circle marker (lines 243-257). -/
structure Marker where
  name : String
  coordinates : ℚ × ℚ
  radius : ℚ
  opacity : ℚ
deriving DecidableEq

/-- The per-marker computation of `generateFoliumMap` (lines 243-246):
`intensity = maxCount > 0 ? count / maxCount : 0`,
`opacity = 0.3 + intensity * 0.7`, `radius = 10 + intensity * 20`,
one marker per entry of the projected data, in iteration order. -/
def generateMarkers (data : List (String × ViewRow)) (maxCount : ℕ) :
    List Marker :=
  data.map (fun e =>
    let intensity : ℚ := if 0 < maxCount then (e.2.count : ℚ) / maxCount else 0
    { name := e.1
      coordinates := e.2.coordinates
      radius := 10 + intensity * 20
      opacity := 3 / 10 + intensity * (7 / 10) })


/-- Bucket existence for a region key in the grouped map. -/
def hasBucket (g : List (String × Bucket)) (k : String) : Bool :=
  (assocGet? g k).isSome

/-- Whether a raw region key reaches the map: its canonical name has an
entry in the coordinate table (the `if (coordinates)` test of line 165). -/
def mappableKey (region : String) : Bool :=
  (assocGet? stateCoordinates (standardNameOf region)).isSome

/-- The sum of the five per-polarity counts of a bucket. -/
def sumCounts (b : Bucket) : ℕ :=
  lookupCount b.counts 1 + lookupCount b.counts 2 + lookupCount b.counts 3 +
    lookupCount b.counts 4 + lookupCount b.counts 5

/-- The polarity-independent part of a view row: everything except
`count` and `percentage`. -/
def viewFrame (vr : ViewRow) : String × ℕ × (ℚ × ℚ) × Bucket :=
  (vr.originalName, vr.total, vr.coordinates, vr.allPolarities)

/-- Modelled from the spec: the spec's per-row keep condition, `Region`
non-empty/non-null, `Polarity` present, and `Polarity` an integer between
1 and 5 inclusive ("`Polarity` column values must parse as integers 1-5
for the row to be used"). -/
def specKeepsRow (row : RawRow) : Prop :=
  (getField row "Region").truthy = true ∧
    ∃ n : ℤ, getField row "Polarity" = .vnum (n : ℚ) ∧ 1 ≤ n ∧ n ≤ 5

/-- Concrete row: region `Jalisco`, polarity 5 (spec Scenario 1). -/
def rowJal5 : RawRow :=
  [("Title", .vstr "A"), ("Review", .vstr "good"), ("Polarity", .vnum 5),
   ("Town", .vstr "T"), ("Region", .vstr "Jalisco"), ("Type", .vstr "hotel")]

/-- Concrete row: region `Jalisco`, polarity 3. -/
def rowJal3 : RawRow :=
  [("Title", .vstr "B"), ("Review", .vstr "okay"), ("Polarity", .vnum 3),
   ("Town", .vstr "T"), ("Region", .vstr "Jalisco"), ("Type", .vstr "hotel")]

/-- Concrete row: region `Puebla`, polarity 3. -/
def rowPue3 : RawRow :=
  [("Title", .vstr "C"), ("Review", .vstr "meh"), ("Polarity", .vnum 3),
   ("Town", .vstr "P"), ("Region", .vstr "Puebla"), ("Type", .vstr "restaurant")]

/-- Concrete row with the fractional polarity 5/2 (a CSV value `2.5`
under `dynamicTyping`). -/
def rowHalf : RawRow :=
  [("Title", .vstr "D"), ("Review", .vstr "so-so"),
   ("Polarity", .vnum (Rat.divInt 5 2)), ("Town", .vstr "T"),
   ("Region", .vstr "Jalisco"), ("Type", .vstr "hotel")]

/-- Concrete row: the encoded raw key `Yucatan` (alias of `Yucatán`),
polarity 3. -/
def rowYucRaw : RawRow :=
  [("Title", .vstr "E"), ("Review", .vstr "nice"), ("Polarity", .vnum 3),
   ("Town", .vstr "M"), ("Region", .vstr "Yucatan"), ("Type", .vstr "hotel")]

/-- Concrete row: the accented raw key `Yucatán` (identity fallback, also
canonical `Yucatán`), polarity 3. -/
def rowYucAcc : RawRow :=
  [("Title", .vstr "F"), ("Review", .vstr "nice"), ("Polarity", .vnum 3),
   ("Town", .vstr "M"), ("Region", .vstr "Yucatán"), ("Type", .vstr "hotel")]

/-- Concrete row: region `Atlantis`, absent from both tables
(spec Scenario 4). -/
def rowAtl : RawRow :=
  [("Title", .vstr "G"), ("Review", .vstr "lost"), ("Polarity", .vnum 3),
   ("Town", .vstr "X"), ("Region", .vstr "Atlantis"), ("Type", .vstr "attraction")]

/-- Spec Scenario 5 dataset: 10 reviews for `Jalisco` and 5 for `Puebla`,
all at polarity 3. -/
def scenarioRows : List RawRow :=
  List.replicate 10 rowJal3 ++ List.replicate 5 rowPue3

/-- Concrete row with all six columns but the out-of-range polarity 0. -/
def rowJal0 : RawRow :=
  [("Title", .vstr "H"), ("Review", .vstr "bad row"), ("Polarity", .vnum 0),
   ("Town", .vstr "T"), ("Region", .vstr "Jalisco"), ("Type", .vstr "hotel")]

/-- A concrete `Loaded` session holding one valid row. -/
def loadedSession : Session :=
  { csvData := [rowJal5], fileLoaded := true, loading := false, error := "" }

/-- A parsed file whose first row carries only a `Region` column, so five
required columns are missing. -/
def badHeaderRows : List RawRow :=
  [[("Region", .vstr "Jalisco")]]

/-- A parsed file with the full header but no row surviving the filter
(its only polarity is 0). -/
def zeroPolRows : List RawRow :=
  [rowJal0]

/-! ## Association-list lemmas -/

theorem assocGet?_assocSet {κ α : Type} [DecidableEq κ]
    (l : List (κ × α)) (k k' : κ) (v : α) :
    assocGet? (assocSet l k v) k' = if k' = k then some v else assocGet? l k' := by
  induction l with
  | nil =>
    simp only [assocSet, assocGet?]
    by_cases h : k' = k
    · subst h; simp
    · rw [if_neg (fun hh => h hh.symm), if_neg h]
  | cons e rest ih =>
    simp only [assocSet]
    by_cases he : e.1 = k
    · simp only [if_pos he, assocGet?]
      by_cases h : k' = k
      · subst h; simp
      · rw [if_neg (fun hh => h hh.symm), if_neg h,
          if_neg (fun hh => h (hh.symm.trans he))]
    · simp only [if_neg he, assocGet?]
      by_cases hek : e.1 = k'
      · rw [if_pos hek, if_neg (fun hh : k' = k => he (hek.trans hh)), if_pos hek]
      · rw [if_neg hek, if_neg hek, ih]

theorem assocGet?_eq_none_iff {κ α : Type} [DecidableEq κ]
    (l : List (κ × α)) (k : κ) :
    assocGet? l k = none ↔ k ∉ l.map Prod.fst := by
  induction l with
  | nil => simp [assocGet?]
  | cons e rest ih =>
    rw [assocGet?, List.map_cons]
    by_cases he : e.1 = k
    · rw [if_pos he]
      constructor
      · intro h; cases h
      · intro h; exact absurd (List.mem_cons.mpr (Or.inl he.symm)) h
    · rw [if_neg he, ih]
      constructor
      · intro h hmem
        rcases List.mem_cons.mp hmem with h1 | h1
        · exact he h1.symm
        · exact h h1
      · intro h hmem
        exact h (List.mem_cons_of_mem _ hmem)

theorem assocSet_of_not_mem {κ α : Type} [DecidableEq κ]
    {l : List (κ × α)} {k : κ} (v : α) (h : k ∉ l.map Prod.fst) :
    assocSet l k v = l ++ [(k, v)] := by
  induction l with
  | nil => rfl
  | cons e rest ih =>
    simp only [List.map_cons, List.mem_cons] at h
    push_neg at h
    simp only [assocSet, if_neg (fun hh : e.1 = k => h.1 hh.symm), List.cons_append,
      List.cons.injEq, true_and]
    exact ih h.2

theorem keys_assocSet_of_mem {κ α : Type} [DecidableEq κ]
    {l : List (κ × α)} {k : κ} (v : α) (h : k ∈ l.map Prod.fst) :
    (assocSet l k v).map Prod.fst = l.map Prod.fst := by
  induction l with
  | nil => simp at h
  | cons e rest ih =>
    simp only [List.map_cons, List.mem_cons] at h
    by_cases he : e.1 = k
    · simp [assocSet, if_pos he, he]
    · have : k ∈ rest.map Prod.fst := by
        rcases h with h | h
        · exact absurd h.symm he
        · exact h
      simp [assocSet, if_neg he, ih this]

theorem mem_of_assocGet? {κ α : Type} [DecidableEq κ]
    {l : List (κ × α)} {k : κ} {v : α} (h : assocGet? l k = some v) :
    (k, v) ∈ l := by
  induction l with
  | nil => simp [assocGet?] at h
  | cons e rest ih =>
    simp only [assocGet?] at h
    by_cases he : e.1 = k
    · rw [if_pos he] at h
      have hv : e.2 = v := Option.some.inj h
      obtain ⟨a, b⟩ := e
      cases he
      cases hv
      exact List.mem_cons_self _ _
    · rw [if_neg he] at h
      exact List.mem_cons_of_mem _ (ih h)

theorem mem_assocSet {κ α : Type} [DecidableEq κ]
    {l : List (κ × α)} {k : κ} {v : α} {e : κ × α} (h : e ∈ assocSet l k v) :
    e ∈ l ∨ e = (k, v) := by
  induction l with
  | nil => simpa [assocSet] using h
  | cons f rest ih =>
    simp only [assocSet] at h
    by_cases hf : f.1 = k
    · rw [if_pos hf] at h
      rcases List.mem_cons.mp h with h | h
      · right; exact h
      · left; exact List.mem_cons_of_mem _ h
    · rw [if_neg hf] at h
      rcases List.mem_cons.mp h with h | h
      · left; exact List.mem_cons.mpr (Or.inl h)
      · rcases ih h with h | h
        · left; exact List.mem_cons_of_mem _ h
        · right; exact h

theorem keys_nodup_assocSet {κ α : Type} [DecidableEq κ]
    {l : List (κ × α)} (k : κ) (v : α) (h : (l.map Prod.fst).Nodup) :
    ((assocSet l k v).map Prod.fst).Nodup := by
  by_cases hk : k ∈ l.map Prod.fst
  · rw [keys_assocSet_of_mem v hk]; exact h
  · rw [assocSet_of_not_mem v hk, List.map_append]
    refine List.nodup_append.mpr ⟨h, List.nodup_singleton _, ?_⟩
    intro a ha hb
    rw [List.map_singleton, List.mem_singleton] at hb
    subst hb
    exact hk ha

/-! ## Bucket lemmas -/

theorem lookupCount_assocSet (cs : List (ℚ × ℕ)) (q p : ℚ) (n : ℕ) :
    lookupCount (assocSet cs q n) p = if p = q then n else lookupCount cs p := by
  unfold lookupCount
  rw [assocGet?_assocSet]
  by_cases h : p = q <;> simp [h]

theorem lookupCount_bump (b : Bucket) (q p : ℚ) :
    lookupCount (Bucket.bump b q).counts p
      = lookupCount b.counts p + if p = q then 1 else 0 := by
  show lookupCount (assocSet b.counts q (lookupCount b.counts q + 1)) p = _
  rw [lookupCount_assocSet]
  by_cases h : p = q
  · subst h; simp
  · simp [h]

theorem lookupCount_all_zero (cs : List (ℚ × ℕ)) (p : ℚ)
    (h : ∀ e ∈ cs, e.2 = 0) : lookupCount cs p = 0 := by
  induction cs with
  | nil => rfl
  | cons e rest ih =>
    show (if e.1 = p then some e.2 else assocGet? rest p).getD 0 = 0
    by_cases he : e.1 = p
    · rw [if_pos he, Option.getD_some]
      exact h e (List.mem_cons_self _ _)
    · rw [if_neg he]
      exact ih (fun x hx => h x (List.mem_cons_of_mem _ hx))

theorem lookupCount_init (p : ℚ) : lookupCount Bucket.init.counts p = 0 :=
  lookupCount_all_zero _ p (by decide)

/-! ## Aggregation characterization -/

theorem aggCount_aggStep (acc : List (String × Bucket)) (r : RawRow)
    (k : String) (p : ℚ) :
    aggCount (aggStep acc r) k p
      = aggCount acc k p + if rowKey r = k ∧ rowPol r = p then 1 else 0 := by
  unfold aggStep aggCount
  rw [assocGet?_assocSet]
  by_cases hk : k = rowKey r
  · subst hk
    rw [if_pos rfl, Option.getD_some, lookupCount_bump]
    by_cases hp : rowPol r = p
    · rw [if_pos hp.symm, if_pos ⟨rfl, hp⟩]
    · rw [if_neg (fun hh => hp hh.symm), if_neg (fun hh => hp hh.2)]
  · rw [if_neg hk, if_neg (fun hh => hk hh.1.symm), Nat.add_zero]

theorem aggTotal_aggStep (acc : List (String × Bucket)) (r : RawRow)
    (k : String) :
    aggTotal (aggStep acc r) k
      = aggTotal acc k + if rowKey r = k then 1 else 0 := by
  unfold aggStep aggTotal
  rw [assocGet?_assocSet]
  by_cases hk : k = rowKey r
  · subst hk
    rw [if_pos rfl, Option.getD_some, if_pos rfl]
    rfl
  · rw [if_neg hk, if_neg (fun hh => hk hh.symm), Nat.add_zero]

theorem hasBucket_aggStep (acc : List (String × Bucket)) (r : RawRow)
    (k : String) :
    hasBucket (aggStep acc r) k
      = (hasBucket acc k || decide (rowKey r = k)) := by
  unfold aggStep hasBucket
  rw [assocGet?_assocSet]
  by_cases hk : k = rowKey r
  · subst hk; simp
  · rw [if_neg hk, decide_eq_false (fun hh : rowKey r = k => hk hh.symm),
      Bool.or_false]

theorem aggCount_foldl (rows : List RawRow) (acc : List (String × Bucket))
    (k : String) (p : ℚ) :
    aggCount (rows.foldl aggStep acc) k p
      = aggCount acc k p
        + rows.countP (fun r => decide (rowKey r = k ∧ rowPol r = p)) := by
  induction rows generalizing acc with
  | nil => simp [List.countP_nil]
  | cons r rows ih =>
    rw [List.foldl_cons, ih, aggCount_aggStep, List.countP_cons]
    by_cases h : rowKey r = k ∧ rowPol r = p
    · simp [h]
      omega
    · simp [h]

theorem aggTotal_foldl (rows : List RawRow) (acc : List (String × Bucket))
    (k : String) :
    aggTotal (rows.foldl aggStep acc) k
      = aggTotal acc k + rows.countP (fun r => decide (rowKey r = k)) := by
  induction rows generalizing acc with
  | nil => simp [List.countP_nil]
  | cons r rows ih =>
    rw [List.foldl_cons, ih, aggTotal_aggStep, List.countP_cons]
    by_cases h : rowKey r = k
    · simp [h]
      omega
    · simp [h]

theorem hasBucket_foldl (rows : List RawRow) (acc : List (String × Bucket))
    (k : String) :
    hasBucket (rows.foldl aggStep acc) k
      = (hasBucket acc k || rows.any (fun r => decide (rowKey r = k))) := by
  induction rows generalizing acc with
  | nil => simp
  | cons r rows ih =>
    rw [List.foldl_cons, ih, hasBucket_aggStep, List.any_cons]
    by_cases h : rowKey r = k <;> simp [h]

theorem aggCount_aggregate (rows : List RawRow) (k : String) (p : ℚ) :
    aggCount (aggregate rows) k p
      = rows.countP (fun r => decide (rowKey r = k ∧ rowPol r = p)) := by
  have h := aggCount_foldl rows [] k p
  simpa [aggregate, aggCount, assocGet?, lookupCount_init] using h

theorem aggTotal_aggregate (rows : List RawRow) (k : String) :
    aggTotal (aggregate rows) k
      = rows.countP (fun r => decide (rowKey r = k)) := by
  have h := aggTotal_foldl rows [] k
  simpa [aggregate, aggTotal, assocGet?, Bucket.init] using h

theorem hasBucket_aggregate (rows : List RawRow) (k : String) :
    hasBucket (aggregate rows) k
      = rows.any (fun r => decide (rowKey r = k)) := by
  have h := hasBucket_foldl rows [] k
  simpa [aggregate, hasBucket, assocGet?] using h

/-! ## Permutation and invariant helpers -/

theorem perm_any {α : Type} {l l' : List α} (f : α → Bool) (h : l.Perm l') :
    l.any f = l'.any f := by
  induction h with
  | nil => rfl
  | cons x _ ih => simp [List.any_cons, ih]
  | swap x y l => simp [List.any_cons, Bool.or_left_comm]
  | trans _ _ ih1 ih2 => exact ih1.trans ih2

theorem bump_preserves_sum (b : Bucket) (q : ℚ)
    (hq : q = 1 ∨ q = 2 ∨ q = 3 ∨ q = 4 ∨ q = 5)
    (hb : b.total = sumCounts b) :
    (Bucket.bump b q).total = sumCounts (Bucket.bump b q) := by
  have htot : (Bucket.bump b q).total = b.total + 1 := rfl
  unfold sumCounts at hb ⊢
  rw [htot, lookupCount_bump, lookupCount_bump, lookupCount_bump,
    lookupCount_bump, lookupCount_bump]
  rcases hq with rfl | rfl | rfl | rfl | rfl <;> norm_num <;> omega

theorem aggregate_total_eq_sumCounts (rows : List RawRow)
    (hpol : ∀ r ∈ rows,
      rowPol r = 1 ∨ rowPol r = 2 ∨ rowPol r = 3 ∨ rowPol r = 4 ∨ rowPol r = 5)
    (k : String) (b : Bucket)
    (hb : assocGet? (aggregate rows) k = some b) :
    b.total = sumCounts b := by
  have main : ∀ (rs : List RawRow) (acc : List (String × Bucket)),
      (∀ r ∈ rs,
        rowPol r = 1 ∨ rowPol r = 2 ∨ rowPol r = 3 ∨ rowPol r = 4 ∨ rowPol r = 5) →
      (∀ k' b', assocGet? acc k' = some b' → b'.total = sumCounts b') →
      ∀ k' b', assocGet? (rs.foldl aggStep acc) k' = some b' →
        b'.total = sumCounts b' := by
    intro rs
    induction rs with
    | nil => intro acc _ hacc; exact hacc
    | cons r rest ih =>
      intro acc hpols hacc k' b' hb'
      rw [List.foldl_cons] at hb'
      refine ih (aggStep acc r)
        (fun x hx => hpols x (List.mem_cons_of_mem _ hx)) ?_ k' b' hb'
      intro k2 b2 hb2
      unfold aggStep at hb2
      rw [assocGet?_assocSet] at hb2
      by_cases hk : k2 = rowKey r
      · rw [if_pos hk] at hb2
        have hb2' := Option.some.inj hb2
        subst hb2'
        refine bump_preserves_sum _ _ (hpols r (List.mem_cons_self _ _)) ?_
        cases hget : assocGet? acc (rowKey r) with
        | some b0 =>
          rw [Option.getD_some]
          exact hacc _ b0 hget
        | none => decide
      · rw [if_neg hk] at hb2
        exact hacc k2 b2 hb2
  refine main rows [] hpol ?_ k b hb
  intro k' b' hb'
  simp [assocGet?] at hb'

/-! ## Claim C1 -/

/-- C1 counterexample: the filter of lines 102-107 keeps the row
`rowHalf`, whose `Polarity` is the non-integer 5/2, while the claim (an
integer 1-5 is required for a row to be kept) says it is dropped. -/
theorem c1_counterexample :
    rowIsValid rowHalf = true ∧ ¬ specKeepsRow rowHalf := by
  constructor
  · decide
  · rintro ⟨-, n, hn, h1, h5⟩
    have hfield : getField rowHalf "Polarity" = .vnum (Rat.divInt 5 2) := by decide
    rw [hfield] at hn
    have hq : (Rat.divInt 5 2 : ℚ) = (n : ℚ) := JSVal.vnum.inj hn
    rw [Rat.divInt_eq_div] at hq
    have h2 : (5 : ℚ) = 2 * (n : ℚ) := by
      field_simp at hq
      linarith
    have h3 : (5 : ℤ) = 2 * n := by exact_mod_cast h2
    omega

/-- C1 (amended): the Row Validator keeps a parsed row if and only if its
`Region` field is truthy (non-empty, non-null) and its `Polarity` field is
a number `q` with `1 ≤ q ≤ 5` — integrality of `q` is not checked — and
the valid-row sequence contains exactly the rows passing this predicate,
every other row being silently dropped. -/
theorem c1_filter_iff (row : RawRow) (rows : List RawRow) :
    (rowIsValid row = true ↔
      ((getField row "Region").truthy = true ∧
        ∃ q : ℚ, getField row "Polarity" = .vnum q ∧ 1 ≤ q ∧ q ≤ 5)) ∧
    (row ∈ filterValid rows ↔ row ∈ rows ∧ rowIsValid row = true) := by
  constructor
  · constructor
    · intro h
      unfold rowIsValid at h
      simp only [Bool.and_eq_true] at h
      obtain ⟨⟨⟨hr, ht⟩, hge⟩, hle⟩ := h
      refine ⟨hr, ?_⟩
      cases hv : getField row "Polarity" with
      | vnull => rw [hv] at ht; exact absurd ht (by decide)
      | vundef => rw [hv] at ht; exact absurd ht (by decide)
      | vstr s =>
        rw [hv] at hge
        exact absurd hge (by simp [JSVal.geNum, JSVal.toNum?])
      | vnum q =>
        rw [hv] at hge hle
        simp only [JSVal.geNum, JSVal.leNum, JSVal.toNum?,
          decide_eq_true_eq] at hge hle
        exact ⟨q, rfl, hge, hle⟩
    · rintro ⟨hr, q, hq, h1, h5⟩
      unfold rowIsValid
      rw [hq]
      simp only [Bool.and_eq_true]
      refine ⟨⟨⟨hr, ?_⟩, ?_⟩, ?_⟩
      · simp only [JSVal.truthy, bne_iff_ne, ne_eq]
        intro h0
        rw [h0] at h1
        norm_num at h1
      · simp [JSVal.geNum, JSVal.toNum?, h1]
      · simp [JSVal.leNum, JSVal.toNum?, h5]
  · simp [filterValid, List.mem_filter]

/-- C1 witness: the amended filter characterization evaluated at the
fractional-polarity row and a two-row list. -/
theorem c1_witness :
    (rowIsValid rowHalf = true ↔
      ((getField rowHalf "Region").truthy = true ∧
        ∃ q : ℚ, getField rowHalf "Polarity" = .vnum q ∧ 1 ≤ q ∧ q ≤ 5)) ∧
    (rowHalf ∈ filterValid [rowJal5, rowHalf] ↔
      rowHalf ∈ [rowJal5, rowHalf] ∧ rowIsValid rowHalf = true) :=
  c1_filter_iff rowHalf [rowJal5, rowHalf]

/-! ## Claim C2 -/

/-- C2 counterexample: the raw keys `Yucatan` and `Yucatán` both
canonicalize to `Yucatán`, yet the two rows land in two distinct buckets
of total 1 each, and the projected view for `Yucatán` reports total 1 —
not the sum 2 over all rows of that canonical region, contradicting the
claim that aggregation is keyed by canonical region. -/
theorem c2_counterexample :
    rowIsValid rowYucRaw = true ∧ rowIsValid rowYucAcc = true ∧
    standardNameOf (rowKey rowYucRaw) = standardNameOf (rowKey rowYucAcc) ∧
    rowKey rowYucRaw ≠ rowKey rowYucAcc ∧
    (aggregate [rowYucRaw, rowYucAcc]).map Prod.fst = ["Yucatan", "Yucatán"] ∧
    aggTotal (aggregate [rowYucRaw, rowYucAcc]) "Yucatan" = 1 ∧
    aggTotal (aggregate [rowYucRaw, rowYucAcc]) "Yucatán" = 1 ∧
    (assocGet? (processData [rowYucRaw, rowYucAcc] 3).1 "Yucatán").map
        ViewRow.total = some 1 := by
  refine ⟨by decide, by decide, by decide, by decide, by decide, by decide,
    by decide, by decide⟩

/-- C2 (amended): aggregation is keyed by the raw `Region` key, not the
canonical region: for every sequence of valid rows, the bucket stored
under a raw key `k` holds, at each polarity `p`, exactly the number of
rows whose raw key is `k` and polarity is `p`, its total is the number of
rows with raw key `k`, and a bucket for `k` exists exactly when some row
has raw key `k`.  Rows whose distinct raw keys share a canonical region
end up in distinct buckets. -/
theorem c2_aggregate_by_raw_key (rows : List RawRow) (k : String) (p : ℚ)
    (_hval : ∀ r ∈ rows, rowIsValid r = true) :
    aggCount (aggregate rows) k p
        = rows.countP (fun r => decide (rowKey r = k ∧ rowPol r = p)) ∧
    aggTotal (aggregate rows) k
        = rows.countP (fun r => decide (rowKey r = k)) ∧
    hasBucket (aggregate rows) k
        = rows.any (fun r => decide (rowKey r = k)) :=
  ⟨aggCount_aggregate rows k p, aggTotal_aggregate rows k,
   hasBucket_aggregate rows k⟩

/-- C2 witness: two rows with the same raw key `Yucatan` share one bucket
whose count at polarity 3 and total are both 2. -/
theorem c2_witness :
    aggCount (aggregate [rowYucRaw, rowYucRaw]) "Yucatan" 3
        = [rowYucRaw, rowYucRaw].countP
            (fun r => decide (rowKey r = "Yucatan" ∧ rowPol r = 3)) ∧
    aggTotal (aggregate [rowYucRaw, rowYucRaw]) "Yucatan"
        = [rowYucRaw, rowYucRaw].countP (fun r => decide (rowKey r = "Yucatan")) ∧
    hasBucket (aggregate [rowYucRaw, rowYucRaw]) "Yucatan"
        = [rowYucRaw, rowYucRaw].any (fun r => decide (rowKey r = "Yucatan")) :=
  c2_aggregate_by_raw_key [rowYucRaw, rowYucRaw] "Yucatan" 3 (by decide)

/-! ## Claim C7 -/

/-- C7: the Aggregator is order-independent: aggregating any permutation
of a valid-row sequence yields an identical bucket map as a mapping —
same bucket existence, same per-polarity counts, same totals, for every
region key. -/
theorem c7_order_independence (rows rows' : List RawRow) (k : String) (p : ℚ)
    (_hval : ∀ r ∈ rows, rowIsValid r = true) (hperm : rows.Perm rows') :
    hasBucket (aggregate rows) k = hasBucket (aggregate rows') k ∧
    aggCount (aggregate rows) k p = aggCount (aggregate rows') k p ∧
    aggTotal (aggregate rows) k = aggTotal (aggregate rows') k := by
  refine ⟨?_, ?_, ?_⟩
  · rw [hasBucket_aggregate, hasBucket_aggregate]
    exact perm_any _ hperm
  · rw [aggCount_aggregate, aggCount_aggregate]
    exact hperm.countP_eq _
  · rw [aggTotal_aggregate, aggTotal_aggregate]
    exact hperm.countP_eq _

/-- C7 witness: swapping a two-row valid sequence leaves bucket
existence, count and total for `Yucatan` unchanged. -/
theorem c7_witness :
    hasBucket (aggregate [rowYucRaw, rowJal5]) "Yucatan"
        = hasBucket (aggregate [rowJal5, rowYucRaw]) "Yucatan" ∧
    aggCount (aggregate [rowYucRaw, rowJal5]) "Yucatan" 3
        = aggCount (aggregate [rowJal5, rowYucRaw]) "Yucatan" 3 ∧
    aggTotal (aggregate [rowYucRaw, rowJal5]) "Yucatan"
        = aggTotal (aggregate [rowJal5, rowYucRaw]) "Yucatan" :=
  c7_order_independence [rowYucRaw, rowJal5] [rowJal5, rowYucRaw] "Yucatan" 3
    (by decide) (List.Perm.swap rowJal5 rowYucRaw [])

/-! ## Claim C10 -/

/-- C10: for valid rows whose polarities are all integers 1..5, every
bucket of the aggregate satisfies `total = count 1 + count 2 + count 3 +
count 4 + count 5`, and the invariant is preserved by every single-row
increment step (`Bucket.bump`) at a polarity in 1..5. -/
theorem c10_total_eq_sum_of_counts (rows : List RawRow) (k : String)
    (b b' : Bucket) (q : ℚ)
    (_hval : ∀ r ∈ rows, rowIsValid r = true)
    (hpol : ∀ r ∈ rows,
      rowPol r = 1 ∨ rowPol r = 2 ∨ rowPol r = 3 ∨ rowPol r = 4 ∨ rowPol r = 5)
    (hb : assocGet? (aggregate rows) k = some b)
    (hq : q = 1 ∨ q = 2 ∨ q = 3 ∨ q = 4 ∨ q = 5)
    (hb' : b'.total = sumCounts b') :
    b.total = sumCounts b ∧
    (Bucket.bump b' q).total = sumCounts (Bucket.bump b' q) :=
  ⟨aggregate_total_eq_sumCounts rows hpol k b hb,
   bump_preserves_sum b' q hq hb'⟩

/-- C10 witness: the invariant at the concrete two-row Jalisco dataset
(bucket total 2 = 0+0+1+0+1) and one concrete increment step. -/
theorem c10_witness :
    (⟨[(1, 0), (2, 0), (3, 1), (4, 0), (5, 1)], 2⟩ : Bucket).total
        = sumCounts ⟨[(1, 0), (2, 0), (3, 1), (4, 0), (5, 1)], 2⟩ ∧
    (Bucket.bump Bucket.init 2).total = sumCounts (Bucket.bump Bucket.init 2) :=
  c10_total_eq_sum_of_counts [rowJal5, rowJal3] "Jalisco"
    ⟨[(1, 0), (2, 0), (3, 1), (4, 0), (5, 1)], 2⟩ Bucket.init 2
    (by decide) (by decide) (by decide) (by decide) (by decide)

/-! ## Claim C3 -/

/-- C3 counterexample: from the `Loaded` session `loadedSession`, an
upload whose rows lack five required columns sets the error but retains
the previously loaded `csvData` and leaves `fileLoaded = true` — the
claim says a failed validation resets the session with no rows
retained. -/
theorem c3_counterexample :
    (uploadComplete loadedSession badHeaderRows).csvData = [rowJal5] ∧
    (uploadComplete loadedSession badHeaderRows).fileLoaded = true ∧
    (uploadComplete loadedSession badHeaderRows).error ≠ "" := by
  refine ⟨by decide, by decide, by decide⟩

/-- C3 (amended): a successful upload replaces `csvData` wholesale with
the new file's valid rows (no merge across uploads) and clears the error;
but a failed upload — missing columns or an empty filtered dataset —
only sets the error message and clears `loading`: the previous session's
`csvData` and `fileLoaded` survive, so validation failure does not reset
the session to the pre-upload state. -/
theorem c3_upload_transition (s : Session) (good bad empt : List RawRow)
    (hgood : missingColumns good = []) (hne : filterValid good ≠ [])
    (hbad : missingColumns bad ≠ [])
    (hemp : missingColumns empt = []) (hempty : filterValid empt = []) :
    ((uploadComplete s good).csvData = filterValid good ∧
      (uploadComplete s good).fileLoaded = true ∧
      (uploadComplete s good).error = "" ∧
      (uploadComplete s good).loading = false) ∧
    ((uploadComplete s bad).csvData = s.csvData ∧
      (uploadComplete s bad).fileLoaded = s.fileLoaded ∧
      (uploadComplete s bad).error
        = "Columnas faltantes: " ++ String.intercalate ", " (missingColumns bad)) ∧
    ((uploadComplete s empt).csvData = s.csvData ∧
      (uploadComplete s empt).fileLoaded = s.fileLoaded ∧
      (uploadComplete s empt).error
        = "No se encontraron datos válidos en el CSV") := by
  refine ⟨?_, ?_, ?_⟩
  · simp only [uploadComplete]
    rw [if_neg (by simp [hgood]), if_neg hne]
    exact ⟨rfl, rfl, rfl, rfl⟩
  · simp only [uploadComplete]
    rw [if_pos hbad]
    exact ⟨rfl, rfl, rfl⟩
  · simp only [uploadComplete]
    rw [if_neg (by simp [hemp]), if_pos hempty]
    exact ⟨rfl, rfl, rfl⟩

/-- C3 witness: the transition theorem at the concrete loaded session, a
good one-row file, a file missing five columns, and a file whose only
row has polarity 0. -/
theorem c3_witness :
    ((uploadComplete loadedSession [rowJal5]).csvData = filterValid [rowJal5] ∧
      (uploadComplete loadedSession [rowJal5]).fileLoaded = true ∧
      (uploadComplete loadedSession [rowJal5]).error = "" ∧
      (uploadComplete loadedSession [rowJal5]).loading = false) ∧
    ((uploadComplete loadedSession badHeaderRows).csvData
        = loadedSession.csvData ∧
      (uploadComplete loadedSession badHeaderRows).fileLoaded
        = loadedSession.fileLoaded ∧
      (uploadComplete loadedSession badHeaderRows).error
        = "Columnas faltantes: "
          ++ String.intercalate ", " (missingColumns badHeaderRows)) ∧
    ((uploadComplete loadedSession zeroPolRows).csvData
        = loadedSession.csvData ∧
      (uploadComplete loadedSession zeroPolRows).fileLoaded
        = loadedSession.fileLoaded ∧
      (uploadComplete loadedSession zeroPolRows).error
        = "No se encontraron datos válidos en el CSV") :=
  c3_upload_transition loadedSession [rowJal5] badHeaderRows zeroPolRows
    (by decide) (by decide) (by decide) (by decide) (by decide)

/-! ## Projection lemmas -/

theorem map_assocSet {κ α β : Type} [DecidableEq κ] (f : α → β)
    (l : List (κ × α)) (k : κ) (v : α) :
    (assocSet l k v).map (fun e => (e.1, f e.2))
      = assocSet (l.map (fun e => (e.1, f e.2))) k (f v) := by
  induction l with
  | nil => rfl
  | cons e rest ih =>
    by_cases he : e.1 = k
    · simp [assocSet, he]
    · simp [assocSet, he, ih]

theorem projStep_unmappable (sp : ℚ) (st : ProjState) (e : String × Bucket)
    (h : mappableKey e.1 = false) : projStep sp st e = st := by
  unfold mappableKey at h
  unfold projStep
  cases hc : assocGet? stateCoordinates (standardNameOf e.1) with
  | some c => rw [hc] at h; simp at h
  | none => rfl

theorem foldl_projStep_filter (sp : ℚ) (g : List (String × Bucket))
    (s : ProjState) :
    g.foldl (projStep sp) s
      = (g.filter (fun e => mappableKey e.1)).foldl (projStep sp) s := by
  induction g generalizing s with
  | nil => rfl
  | cons e rest ih =>
    rw [List.foldl_cons, List.filter_cons]
    by_cases h : mappableKey e.1 = true
    · rw [if_pos h, List.foldl_cons]
      exact ih _
    · rw [projStep_unmappable sp s e (by simpa using h), if_neg h]
      exact ih s

theorem filter_assocSet_unmappable (g : List (String × Bucket)) (k : String)
    (b : Bucket) (h : mappableKey k = false) :
    (assocSet g k b).filter (fun e => mappableKey e.1)
      = g.filter (fun e => mappableKey e.1) := by
  induction g with
  | nil =>
    show List.filter _ [(k, b)] = List.filter _ []
    rw [List.filter_cons, if_neg (by simpa using h)]
  | cons e rest ih =>
    by_cases he : e.1 = k
    · show List.filter _ (if e.1 = k then (k, b) :: rest else _) = _
      rw [if_pos he, List.filter_cons, if_neg (by simpa using h),
        List.filter_cons, if_neg (by simp [he, h])]
    · show List.filter _ (if e.1 = k then _ else e :: assocSet rest k b) = _
      rw [if_neg he, List.filter_cons, List.filter_cons]
      by_cases hm : mappableKey e.1 = true
      · rw [if_pos hm, if_pos hm, ih]
      · rw [if_neg hm, if_neg hm, ih]

/-! ## Claim C9 -/

/-- C9: for a fixed dataset, switching the selected polarity changes only
the `count` and `percentage` fields of the projected view rows: the key
sequence and every row's `originalName`, `total`, `coordinates` and
`allPolarities` are identical for any two polarity values.  (`processData`
is a pure function of `csvData` and the selected polarity, so the switch
re-reads no file and re-validates no row.) -/
theorem c9_polarity_switch_frame (d : List RawRow) (p p' : ℚ) :
    ((processData d p).1).map (fun e => (e.1, viewFrame e.2))
      = ((processData d p').1).map (fun e => (e.1, viewFrame e.2)) := by
  suffices h : ∀ (g : List (String × Bucket)) (s s' : ProjState),
      s.1.map (fun e => (e.1, viewFrame e.2))
          = s'.1.map (fun e => (e.1, viewFrame e.2)) →
      (g.foldl (projStep p) s).1.map (fun e => (e.1, viewFrame e.2))
        = (g.foldl (projStep p') s').1.map (fun e => (e.1, viewFrame e.2)) by
    exact h (aggregate d) ([], 0, 0) ([], 0, 0) rfl
  intro g
  induction g with
  | nil => intro s s' h; exact h
  | cons e rest ih =>
    intro s s' h
    rw [List.foldl_cons, List.foldl_cons]
    refine ih _ _ ?_
    unfold projStep
    cases hc : assocGet? stateCoordinates (standardNameOf e.1) with
    | some c =>
      show (assocSet s.1 (standardNameOf e.1) (mkView e.1 e.2 p c)).map _
          = (assocSet s'.1 (standardNameOf e.1) (mkView e.1 e.2 p' c)).map _
      rw [map_assocSet, map_assocSet, h]
      rfl
    | none => exact h

/-! ## Claim C4 -/

/-- C4 counterexample: the valid row for the unmappable region `Atlantis`
does get a bucket allocated in the grouped map (with total 1), refuting
the claim that the Aggregator "skips the row entirely without allocating
a bucket". -/
theorem c4_counterexample :
    rowIsValid rowAtl = true ∧
    mappableKey (rowKey rowAtl) = false ∧
    hasBucket (aggregate [rowAtl]) "Atlantis" = true ∧
    aggTotal (aggregate [rowAtl]) "Atlantis" = 1 := by
  refine ⟨by decide, by decide, by decide, by decide⟩

/-- C4 (amended): a valid row whose canonical region has no coordinate
entry does get a raw bucket allocated, but it is invisible downstream:
appending such a row to any dataset leaves the entire `processData`
output — every view row, `totalStates`, `totalReviews`, `maxCount` — and
the generated map markers unchanged. -/
theorem c4_unmappable_row_invisible (d : List RawRow) (r : RawRow) (p : ℚ)
    (hr : mappableKey (rowKey r) = false) :
    processData (d ++ [r]) p = processData d p ∧
    hasBucket (aggregate (d ++ [r])) (rowKey r) = true ∧
    generateMarkers (processData (d ++ [r]) p).1
        (processData (d ++ [r]) p).2.maxCount
      = generateMarkers (processData d p).1 (processData d p).2.maxCount := by
  have hagg : aggregate (d ++ [r]) = aggStep (aggregate d) r := by
    unfold aggregate
    rw [List.foldl_append, List.foldl_cons, List.foldl_nil]
  have hfold : projFold (d ++ [r]) p = projFold d p := by
    unfold projFold
    rw [hagg, foldl_projStep_filter p (aggStep (aggregate d) r),
      foldl_projStep_filter p (aggregate d)]
    unfold aggStep
    rw [filter_assocSet_unmappable _ _ _ hr]
  have hmain : processData (d ++ [r]) p = processData d p := by
    unfold processData
    rw [hfold]
  refine ⟨hmain, ?_, by rw [hmain]⟩
  rw [hasBucket_aggregate]
  simp [List.any_append]

/-- C4 witness: appending the `Atlantis` row to a one-row Jalisco dataset
leaves the processed output and markers unchanged, while its bucket
exists. -/
theorem c4_witness :
    processData ([rowJal5] ++ [rowAtl]) 3 = processData [rowJal5] 3 ∧
    hasBucket (aggregate ([rowJal5] ++ [rowAtl])) (rowKey rowAtl) = true ∧
    generateMarkers (processData ([rowJal5] ++ [rowAtl]) 3).1
        (processData ([rowJal5] ++ [rowAtl]) 3).2.maxCount
      = generateMarkers (processData [rowJal5] 3).1
          (processData [rowJal5] 3).2.maxCount :=
  c4_unmappable_row_invisible [rowJal5] rowAtl 3 (by decide)

/-! ## Percentage lemmas -/

theorem pctTenths_eq_round (c t : ℕ) (ht : 0 < t) :
    pctTenths c t = round ((c : ℚ) / t * 100 * 10) := by
  have htq : (0 : ℚ) < t := by exact_mod_cast ht
  rw [round_eq]
  have key : (c : ℚ) / t * 100 * 10 + 1 / 2
      = ((2000 * (c : ℤ) + (t : ℤ) : ℤ) : ℚ) / ((2 * t : ℕ) : ℚ) := by
    push_cast
    field_simp
    ring
  rw [key, Rat.floor_intCast_div_natCast]
  have h2t : ((2 * t : ℕ) : ℤ) = 2 * (t : ℤ) := by push_cast; ring
  rw [h2t]
  rfl

theorem pctVal_bounds (c t : ℕ) (h : c ≤ t) :
    0 ≤ pctVal c t ∧ pctVal c t ≤ 100 := by
  unfold pctVal
  rcases Nat.eq_zero_or_pos t with ht | ht
  · subst ht
    have hc : c = 0 := Nat.le_zero.mp h
    subst hc
    norm_num
  · have htq : (0 : ℚ) < t := by exact_mod_cast ht
    have hcq : (c : ℚ) ≤ t := by exact_mod_cast h
    have h0 : (0 : ℚ) ≤ (c : ℚ) / t * 100 * 10 := by positivity
    have hdiv : (c : ℚ) / t ≤ 1 := div_le_one_of_le₀ hcq (le_of_lt htq)
    have h1 : (c : ℚ) / t * 100 * 10 ≤ 1000 := by nlinarith
    have hr0 : (0 : ℤ) ≤ round ((c : ℚ) / t * 100 * 10) := by
      rw [round_eq]
      refine Int.le_floor.mpr ?_
      push_cast
      linarith
    have hr1 : round ((c : ℚ) / t * 100 * 10) ≤ 1000 := by
      rw [round_eq]
      have hfl : ((⌊(c : ℚ) / t * 100 * 10 + 1 / 2⌋ : ℤ) : ℚ)
          ≤ (c : ℚ) / t * 100 * 10 + 1 / 2 := Int.floor_le _
      have hlt : ((⌊(c : ℚ) / t * 100 * 10 + 1 / 2⌋ : ℤ) : ℚ) < 1001 := by
        linarith
      have hlt' : (⌊(c : ℚ) / t * 100 * 10 + 1 / 2⌋ : ℤ) < 1001 := by
        exact_mod_cast hlt
      omega
    constructor
    · refine div_nonneg ?_ (by norm_num)
      exact_mod_cast hr0
    · have hc1000 : ((round ((c : ℚ) / t * 100 * 10) : ℤ) : ℚ) ≤ 1000 := by
        exact_mod_cast hr1
      linarith

/-! ## Aggregate bucket invariants -/

theorem aggregate_keys_nodup (rows : List RawRow) :
    ((aggregate rows).map Prod.fst).Nodup := by
  have main : ∀ (rs : List RawRow) (acc : List (String × Bucket)),
      (acc.map Prod.fst).Nodup → ((rs.foldl aggStep acc).map Prod.fst).Nodup := by
    intro rs
    induction rs with
    | nil => intro acc h; exact h
    | cons r rest ih =>
      intro acc h
      rw [List.foldl_cons]
      exact ih _ (keys_nodup_assocSet _ _ h)
  exact main rows [] (by simp)

theorem aggregate_count_le_total (rows : List RawRow) (e : String × Bucket)
    (he : e ∈ aggregate rows) (p : ℚ) :
    lookupCount e.2.counts p ≤ e.2.total := by
  have main : ∀ (rs : List RawRow) (acc : List (String × Bucket)),
      (∀ e' ∈ acc, ∀ q, lookupCount (e' : String × Bucket).2.counts q ≤ e'.2.total) →
      ∀ e' ∈ rs.foldl aggStep acc, ∀ q,
        lookupCount (e' : String × Bucket).2.counts q ≤ e'.2.total := by
    intro rs
    induction rs with
    | nil => intro acc h; exact h
    | cons r rest ih =>
      intro acc hacc
      rw [List.foldl_cons]
      refine ih _ ?_
      intro e' he' q
      rcases mem_assocSet he' with hm | hm
      · exact hacc e' hm q
      · subst hm
        show lookupCount (Bucket.bump _ (rowPol r)).counts q ≤ _
        rw [lookupCount_bump]
        have hbase : ∀ q', lookupCount
            ((assocGet? acc (rowKey r)).getD Bucket.init).counts q'
              ≤ ((assocGet? acc (rowKey r)).getD Bucket.init).total := by
          intro q'
          cases hget : assocGet? acc (rowKey r) with
          | some b0 =>
            rw [Option.getD_some]
            exact hacc _ (mem_of_assocGet? hget) q'
          | none =>
            rw [Option.getD_none, lookupCount_init]
            exact Nat.zero_le _
        have h1 := hbase q
        have h2 := hbase (rowPol r)
        show _ ≤ ((assocGet? acc (rowKey r)).getD Bucket.init).total + 1
        rcases eq_or_ne q (rowPol r) with hq | hq
        · rw [if_pos hq]
          omega
        · rw [if_neg hq]
          omega
  exact main rows [] (by intro e' he'; simp at he') e he p

theorem mem_projFold (d : List RawRow) (sp : ℚ) (k : String) (vr : ViewRow)
    (h : (k, vr) ∈ (projFold d sp).1) :
    ∃ region b c, (region, b) ∈ aggregate d ∧
      assocGet? stateCoordinates (standardNameOf region) = some c ∧
      k = standardNameOf region ∧ vr = mkView region b sp c := by
  have main : ∀ (g : List (String × Bucket)) (s : ProjState),
      (k, vr) ∈ (g.foldl (projStep sp) s).1 →
      (k, vr) ∈ s.1 ∨
        ∃ region b c, (region, b) ∈ g ∧
          assocGet? stateCoordinates (standardNameOf region) = some c ∧
          k = standardNameOf region ∧ vr = mkView region b sp c := by
    intro g
    induction g with
    | nil => intro s hs; exact Or.inl hs
    | cons e rest ih =>
      intro s hs
      rw [List.foldl_cons] at hs
      rcases ih _ hs with hmem | ⟨region, b, c, hm, hc, hk, hv⟩
      · unfold projStep at hmem
        cases hc : assocGet? stateCoordinates (standardNameOf e.1) with
        | some c =>
          rw [hc] at hmem
          rcases mem_assocSet hmem with hmem' | hmem'
          · exact Or.inl hmem'
          · right
            refine ⟨e.1, e.2, c, List.mem_cons_self _ _, hc, ?_, ?_⟩
            · exact congrArg Prod.fst hmem'
            · exact congrArg Prod.snd hmem'
        | none =>
          rw [hc] at hmem
          exact Or.inl hmem
      · exact Or.inr ⟨region, b, c, List.mem_cons_of_mem _ hm, hc, hk, hv⟩
  rcases main (aggregate d) ([], 0, 0) h with hmem | hex
  · simp at hmem
  · exact hex

/-! ## Claim C6 -/

/-- C6: every projected view row is built from its region's bucket:
`count` is the bucket's entry at the selected polarity (0 when absent),
`total` is the bucket total, `allPolarities` is a copy of the bucket
(hence of its five per-polarity counts), `percentage` renders
`round(count/total*100, 1 decimal)` with one decimal when `total > 0` and
is `"0.0"` otherwise, and the rounded percentage value lies between 0 and
100. -/
theorem c6_view_fields (d : List RawRow) (sp : ℚ) (k : String) (vr : ViewRow)
    (h : (k, vr) ∈ (processData d sp).1) :
    ∃ b : Bucket, (vr.originalName, b) ∈ aggregate d ∧
      k = standardNameOf vr.originalName ∧
      vr.count = lookupCount b.counts sp ∧
      vr.total = b.total ∧
      vr.allPolarities = b ∧
      (0 < vr.total → vr.percentage
        = toString ((round ((vr.count : ℚ) / vr.total * 100 * 10) : ℤ) / 10)
          ++ "." ++ toString ((round ((vr.count : ℚ) / vr.total * 100 * 10) : ℤ) % 10)) ∧
      (vr.total = 0 → vr.percentage = "0.0") ∧
      vr.count ≤ vr.total ∧
      0 ≤ pctVal vr.count vr.total ∧ pctVal vr.count vr.total ≤ 100 := by
  rcases mem_projFold d sp k vr h with ⟨region, b, c, hm, hc, hk, hv⟩
  subst hv
  have hle : lookupCount b.counts sp ≤ b.total :=
    aggregate_count_le_total d (region, b) hm sp
  refine ⟨b, hm, hk, rfl, rfl, rfl, ?_, ?_, hle, ?_, ?_⟩
  · intro hpos
    have hpos' : 0 < b.total := hpos
    show pctString (lookupCount b.counts sp) b.total = _
    unfold pctString
    rw [if_pos hpos', pctTenths_eq_round _ _ hpos']
    rfl
  · intro hzero
    have hzero' : b.total = 0 := hzero
    show pctString (lookupCount b.counts sp) b.total = _
    unfold pctString
    rw [if_neg (by omega)]
  · exact (pctVal_bounds _ _ hle).1
  · exact (pctVal_bounds _ _ hle).2

/-- C6 witness: the view row for `Jalisco` at polarity 5 built from the
one-row Scenario 1 dataset. -/
theorem c6_witness :
    ∃ b : Bucket,
      (ViewRow.originalName
          { originalName := "Jalisco", count := 1, total := 1,
            percentage := "100.0",
            coordinates := (dec4 206597, dec4 (-1033496)),
            allPolarities := ⟨[(1, 0), (2, 0), (3, 0), (4, 0), (5, 1)], 1⟩ }, b)
        ∈ aggregate [rowJal5] ∧
      "Jalisco" = standardNameOf (ViewRow.originalName
          { originalName := "Jalisco", count := 1, total := 1,
            percentage := "100.0",
            coordinates := (dec4 206597, dec4 (-1033496)),
            allPolarities := ⟨[(1, 0), (2, 0), (3, 0), (4, 0), (5, 1)], 1⟩ }) ∧
      (1 : ℕ) = lookupCount b.counts 5 ∧
      (1 : ℕ) = b.total ∧
      (⟨[(1, 0), (2, 0), (3, 0), (4, 0), (5, 1)], 1⟩ : Bucket) = b ∧
      (0 < 1 → ("100.0" : String)
        = toString ((round ((1 : ℚ) / 1 * 100 * 10) : ℤ) / 10)
          ++ "." ++ toString ((round ((1 : ℚ) / 1 * 100 * 10) : ℤ) % 10)) ∧
      ((1 : ℕ) = 0 → ("100.0" : String) = "0.0") ∧
      (1 : ℕ) ≤ 1 ∧
      0 ≤ pctVal 1 1 ∧ pctVal 1 1 ≤ 100 := by
  have h := c6_view_fields [rowJal5] 5 "Jalisco"
    { originalName := "Jalisco", count := 1, total := 1,
      percentage := "100.0",
      coordinates := (dec4 206597, dec4 (-1033496)),
      allPolarities := ⟨[(1, 0), (2, 0), (3, 0), (4, 0), (5, 1)], 1⟩ }
    (by decide)
  exact h

/-! ## Projection statistics lemmas -/

theorem projStep_snd_of_mappable (sp : ℚ) (s : ProjState) (e : String × Bucket)
    (h : mappableKey e.1 = true) :
    (projStep sp s e).2.1 = max s.2.1 (lookupCount e.2.counts sp) ∧
    (projStep sp s e).2.2 = s.2.2 + lookupCount e.2.counts sp := by
  unfold mappableKey at h
  unfold projStep
  cases hc : assocGet? stateCoordinates (standardNameOf e.1) with
  | some c => exact ⟨rfl, rfl⟩
  | none => rw [hc] at h; simp at h

theorem foldl_projStep_totalReviews (sp : ℚ) (g : List (String × Bucket))
    (s : ProjState) :
    (g.foldl (projStep sp) s).2.2
      = s.2.2 + ((g.filter (fun e => mappableKey e.1)).map
          (fun e => lookupCount e.2.counts sp)).sum := by
  induction g generalizing s with
  | nil => simp
  | cons e rest ih =>
    rw [List.foldl_cons, List.filter_cons]
    by_cases h : mappableKey e.1 = true
    · rw [if_pos h, List.map_cons, List.sum_cons, ih,
        (projStep_snd_of_mappable sp s e h).2]
      omega
    · rw [if_neg h, projStep_unmappable sp s e (by simpa using h), ih]

theorem foldl_projStep_maxCount (sp : ℚ) (g : List (String × Bucket))
    (s : ProjState) :
    (g.foldl (projStep sp) s).2.1
      = ((g.filter (fun e => mappableKey e.1)).map
          (fun e => lookupCount e.2.counts sp)).foldl max s.2.1 := by
  induction g generalizing s with
  | nil => simp
  | cons e rest ih =>
    rw [List.foldl_cons, List.filter_cons]
    by_cases h : mappableKey e.1 = true
    · rw [if_pos h, List.map_cons, List.foldl_cons, ih,
        (projStep_snd_of_mappable sp s e h).1]
    · rw [if_neg h, projStep_unmappable sp s e (by simpa using h), ih]

theorem sum_map_filter_le {α : Type} (q : α → Bool) (f : α → ℕ) (l : List α) :
    ((l.filter q).map f).sum ≤ (l.map f).sum := by
  induction l with
  | nil => simp
  | cons e rest ih =>
    rw [List.filter_cons, List.map_cons, List.sum_cons]
    by_cases h : q e = true
    · rw [if_pos h, List.map_cons, List.sum_cons]
      omega
    · rw [if_neg h]
      omega

theorem sum_map_filter_eq {α : Type} (q : α → Bool) (f : α → ℕ) (l : List α)
    (h : ∀ e ∈ l, q e = false → f e = 0) :
    ((l.filter q).map f).sum = (l.map f).sum := by
  induction l with
  | nil => simp
  | cons e rest ih =>
    rw [List.filter_cons, List.map_cons, List.sum_cons]
    have ih' := ih (fun x hx hq => h x (List.mem_cons_of_mem _ hx) hq)
    by_cases hq : q e = true
    · rw [if_pos hq, List.map_cons, List.sum_cons, ih']
    · rw [if_neg hq, ih', h e (List.mem_cons_self _ _) (by simpa using hq)]
      omega

/-! ## Aggregate sum lemmas -/

theorem sum_map_assocSet_some {κ α : Type} [DecidableEq κ] (f : α → ℕ)
    (l : List (κ × α)) (k : κ) (v b₀ : α) (h : assocGet? l k = some b₀) :
    ((assocSet l k v).map (fun e => f e.2)).sum + f b₀
      = (l.map (fun e => f e.2)).sum + f v := by
  induction l with
  | nil => simp [assocGet?] at h
  | cons e rest ih =>
    show ((if e.1 = k then (k, v) :: rest else e :: assocSet rest k v).map _).sum + _ = _
    rw [show assocGet? (e :: rest) k
        = if e.1 = k then some e.2 else assocGet? rest k from rfl] at h
    by_cases he : e.1 = k
    · rw [if_pos he] at h ⊢
      have hb : e.2 = b₀ := Option.some.inj h
      rw [List.map_cons, List.sum_cons, List.map_cons, List.sum_cons, hb]
      have hkv : f (k, v).2 = f v := rfl
      omega
    · rw [if_neg he] at h ⊢
      rw [List.map_cons, List.sum_cons, List.map_cons, List.sum_cons]
      have := ih h
      omega

theorem sum_map_assocSet_none {κ α : Type} [DecidableEq κ] (f : α → ℕ)
    (l : List (κ × α)) (k : κ) (v : α) (h : assocGet? l k = none) :
    ((assocSet l k v).map (fun e => f e.2)).sum
      = (l.map (fun e => f e.2)).sum + f v := by
  rw [assocSet_of_not_mem v ((assocGet?_eq_none_iff l k).mp h),
    List.map_append, List.sum_append]
  simp

theorem sum_counts_aggStep (p : ℚ) (acc : List (String × Bucket)) (r : RawRow) :
    ((aggStep acc r).map (fun e => lookupCount e.2.counts p)).sum
      = (acc.map (fun e => lookupCount e.2.counts p)).sum
        + (if rowPol r = p then 1 else 0) := by
  unfold aggStep
  cases hget : assocGet? acc (rowKey r) with
  | some b0 =>
    have hs := sum_map_assocSet_some (fun b => lookupCount b.counts p) acc
      (rowKey r) ((Option.getD (some b0) Bucket.init).bump (rowPol r)) b0 hget
    beta_reduce at hs
    rw [Option.getD_some] at hs
    rw [Option.getD_some]
    have hbump := lookupCount_bump b0 (rowPol r) p
    by_cases hp : rowPol r = p
    · rw [if_pos hp]
      rw [if_pos hp.symm] at hbump
      omega
    · rw [if_neg hp]
      rw [if_neg (fun hh => hp hh.symm)] at hbump
      omega
  | none =>
    have hs := sum_map_assocSet_none (fun b => lookupCount b.counts p) acc
      (rowKey r) ((Option.getD none Bucket.init).bump (rowPol r)) hget
    beta_reduce at hs
    rw [Option.getD_none] at hs
    rw [Option.getD_none, hs, lookupCount_bump, lookupCount_init]
    by_cases hp : rowPol r = p
    · rw [if_pos hp, if_pos hp.symm]
    · rw [if_neg hp, if_neg (fun hh => hp hh.symm)]

theorem sum_counts_aggregate (rows : List RawRow) (p : ℚ) :
    ((aggregate rows).map (fun e => lookupCount e.2.counts p)).sum
      = rows.countP (fun r => decide (rowPol r = p)) := by
  have main : ∀ (rs : List RawRow) (acc : List (String × Bucket)),
      ((rs.foldl aggStep acc).map (fun e => lookupCount e.2.counts p)).sum
        = (acc.map (fun e => lookupCount e.2.counts p)).sum
          + rs.countP (fun r => decide (rowPol r = p)) := by
    intro rs
    induction rs with
    | nil => intro acc; simp
    | cons r rest ih =>
      intro acc
      rw [List.foldl_cons, ih, sum_counts_aggStep, List.countP_cons]
      by_cases hp : rowPol r = p
      · simp [hp]
        omega
      · simp [hp]
  have h := main rows []
  simpa using h

theorem mem_keys_aggregate (rows : List RawRow) (k : String)
    (h : k ∈ (aggregate rows).map Prod.fst) : ∃ r ∈ rows, rowKey r = k := by
  have hsome : hasBucket (aggregate rows) k = true := by
    unfold hasBucket
    cases hget : assocGet? (aggregate rows) k with
    | some b => rfl
    | none => exact absurd h ((assocGet?_eq_none_iff _ _).mp hget)
  rw [hasBucket_aggregate] at hsome
  rcases List.any_eq_true.mp hsome with ⟨r, hr, hk⟩
  exact ⟨r, hr, of_decide_eq_true hk⟩

theorem assocGet?_of_mem_nodup {κ α : Type} [DecidableEq κ]
    {l : List (κ × α)} {e : κ × α} (he : e ∈ l)
    (hnd : (l.map Prod.fst).Nodup) : assocGet? l e.1 = some e.2 := by
  induction l with
  | nil => simp at he
  | cons f rest ih =>
    rw [List.map_cons, List.nodup_cons] at hnd
    rcases List.mem_cons.mp he with h | h
    · subst h
      show (if e.1 = e.1 then some e.2 else _) = some e.2
      rw [if_pos rfl]
    · have hne : f.1 ≠ e.1 := by
        intro hh
        exact hnd.1 (hh ▸ (List.mem_map.mpr ⟨e, h, rfl⟩))
      show (if f.1 = e.1 then some f.2 else assocGet? rest e.1) = some e.2
      rw [if_neg hne]
      exact ih h hnd.2

theorem foldl_projStep_proc_of_fresh (sp : ℚ) (g : List (String × Bucket))
    (s : ProjState)
    (hdist : (g.filter (fun e => mappableKey e.1)).Pairwise
        (fun e e' => standardNameOf e.1 ≠ standardNameOf e'.1))
    (hfresh : ∀ e ∈ g.filter (fun e => mappableKey e.1),
        standardNameOf e.1 ∉ s.1.map Prod.fst) :
    (g.foldl (projStep sp) s).1
      = s.1 ++ (g.filter (fun e => mappableKey e.1)).map
          (fun e => (standardNameOf e.1,
            mkView e.1 e.2 sp
              ((assocGet? stateCoordinates (standardNameOf e.1)).getD (0, 0)))) := by
  induction g generalizing s with
  | nil => simp
  | cons e rest ih =>
    rw [List.foldl_cons]
    rw [List.filter_cons] at hdist hfresh ⊢
    by_cases h : mappableKey e.1 = true
    · rw [if_pos h] at hdist hfresh ⊢
      rcases List.pairwise_cons.mp hdist with ⟨hhead, hrest⟩
      have hs : standardNameOf e.1 ∉ s.1.map Prod.fst :=
        hfresh e (List.mem_cons_self _ _)
      have hm := h
      unfold mappableKey at hm
      cases hc : assocGet? stateCoordinates (standardNameOf e.1) with
      | none => rw [hc] at hm; simp at hm
      | some c =>
        have hstep : (projStep sp s e).1
            = s.1 ++ [(standardNameOf e.1, mkView e.1 e.2 sp c)] := by
          unfold projStep
          rw [hc]
          exact assocSet_of_not_mem _ hs
        have hfresh' : ∀ e' ∈ rest.filter (fun e => mappableKey e.1),
            standardNameOf e'.1 ∉ (projStep sp s e).1.map Prod.fst := by
          intro e' he'
          rw [hstep, List.map_append]
          intro hmem
          rcases List.mem_append.mp hmem with hmem | hmem
          · exact hfresh e' (List.mem_cons_of_mem _ he') hmem
          · rw [List.map_singleton, List.mem_singleton] at hmem
            exact hhead e' he' hmem.symm
        rw [ih (projStep sp s e) hrest hfresh', hstep, List.map_cons, hc,
          Option.getD_some, List.append_assoc, List.singleton_append]
    · rw [if_neg h] at hdist hfresh ⊢
      rw [projStep_unmappable sp s e (by simpa using h)]
      exact ih s hdist hfresh

/-! ## Claim C5 -/

theorem sum_counts_assocSet_le (l : List (String × ViewRow)) (k : String)
    (v : ViewRow) :
    ((assocSet l k v).map (fun e => e.2.count)).sum
      ≤ v.count + (l.map (fun e => e.2.count)).sum := by
  induction l with
  | nil =>
    show (([(k, v)]).map (fun e => e.2.count)).sum ≤ _
    simp
  | cons f rest ih =>
    show ((if f.1 = k then (k, v) :: rest
        else f :: assocSet rest k v).map _).sum ≤ _
    by_cases hf : f.1 = k
    · rw [if_pos hf, List.map_cons, List.sum_cons, List.map_cons, List.sum_cons]
      have hkv : (k, v).2.count = v.count := rfl
      omega
    · rw [if_neg hf, List.map_cons, List.sum_cons, List.map_cons, List.sum_cons]
      omega

theorem foldl_projStep_sum_le (sp : ℚ) (g : List (String × Bucket))
    (s : ProjState)
    (hs : (s.1.map (fun e => e.2.count)).sum ≤ s.2.2) :
    (((g.foldl (projStep sp) s).1).map (fun e => e.2.count)).sum
      ≤ (g.foldl (projStep sp) s).2.2 := by
  induction g generalizing s with
  | nil => exact hs
  | cons e rest ih =>
    rw [List.foldl_cons]
    refine ih _ ?_
    by_cases h : mappableKey e.1 = true
    · have hm := h
      unfold mappableKey at hm
      cases hc : assocGet? stateCoordinates (standardNameOf e.1) with
      | none => rw [hc] at hm; simp at hm
      | some c =>
        have h1 : (projStep sp s e).1
            = assocSet s.1 (standardNameOf e.1) (mkView e.1 e.2 sp c) := by
          unfold projStep
          rw [hc]
        have h2 : (projStep sp s e).2.2 = s.2.2 + lookupCount e.2.counts sp :=
          (projStep_snd_of_mappable sp s e h).2
        rw [h1, h2]
        have h3 := sum_counts_assocSet_le s.1 (standardNameOf e.1)
          (mkView e.1 e.2 sp c)
        have h4 : (mkView e.1 e.2 sp c).count = lookupCount e.2.counts sp := rfl
        omega
    · rw [projStep_unmappable sp s e (by simpa using h)]
      exact hs

theorem projFold_counts_of_inj (d : List RawRow) (p : ℚ)
    (hinj : ∀ r ∈ d, ∀ r' ∈ d,
      standardNameOf (rowKey r) = standardNameOf (rowKey r') →
        rowKey r = rowKey r') :
    ((projFold d p).1).map (fun e => e.2.count)
      = ((aggregate d).filter (fun e => mappableKey e.1)).map
          (fun e => lookupCount e.2.counts p) := by
  have hnd := aggregate_keys_nodup d
  have hpw : (aggregate d).Pairwise (fun e e' => e.1 ≠ e'.1) :=
    List.pairwise_map.mp hnd
  have hpwf : ((aggregate d).filter (fun e => mappableKey e.1)).Pairwise
      (fun e e' => e.1 ≠ e'.1) :=
    List.Pairwise.sublist (List.filter_sublist _) hpw
  have hdist : ((aggregate d).filter (fun e => mappableKey e.1)).Pairwise
      (fun e e' => standardNameOf e.1 ≠ standardNameOf e'.1) := by
    refine hpwf.imp_of_mem ?_
    intro a b ha hb hne hsn
    have ha' : a.1 ∈ (aggregate d).map Prod.fst :=
      List.mem_map.mpr ⟨a, (List.filter_sublist _).subset ha, rfl⟩
    have hb' : b.1 ∈ (aggregate d).map Prod.fst :=
      List.mem_map.mpr ⟨b, (List.filter_sublist _).subset hb, rfl⟩
    rcases mem_keys_aggregate d a.1 ha' with ⟨r1, hr1, hk1⟩
    rcases mem_keys_aggregate d b.1 hb' with ⟨r2, hr2, hk2⟩
    apply hne
    rw [← hk1, ← hk2]
    refine hinj r1 hr1 r2 hr2 ?_
    rw [hk1, hk2]
    exact hsn
  have hproc : (projFold d p).1
      = ((aggregate d).filter (fun e => mappableKey e.1)).map
          (fun e => (standardNameOf e.1,
            mkView e.1 e.2 p
              ((assocGet? stateCoordinates (standardNameOf e.1)).getD (0, 0)))) := by
    have h := foldl_projStep_proc_of_fresh p (aggregate d) ([], 0, 0) hdist
      (by intro e he; simp)
    rw [List.nil_append] at h
    exact h
  rw [hproc, List.map_map]
  rfl

/-- C5 (amended): `totalStates` equals the number of view rows, and the
sum of view-row counts at the selected polarity is at most the number of
valid rows with that polarity, for every input.  When additionally
distinct raw region keys canonicalize to distinct canonical names (no
alias collision), `totalReviews` is the sum of the view-row counts and
`maxCount` their maximum (0 when there are none); and when furthermore
every region carrying the selected polarity is mappable, the sum equals
the number of valid rows with that polarity. -/
theorem c5_session_stats (d : List RawRow) (p : ℚ)
    (_hval : ∀ r ∈ d, rowIsValid r = true) :
    (processData d p).2.totalStates = (processData d p).1.length ∧
    ((processData d p).1.map (fun e => e.2.count)).sum
        ≤ d.countP (fun r => decide (rowPol r = p)) ∧
    ((∀ r ∈ d, ∀ r' ∈ d,
        standardNameOf (rowKey r) = standardNameOf (rowKey r') →
          rowKey r = rowKey r') →
      (processData d p).2.totalReviews
          = ((processData d p).1.map (fun e => e.2.count)).sum ∧
      (processData d p).2.maxCount
          = ((processData d p).1.map (fun e => e.2.count)).foldl max 0) ∧
    ((∀ r ∈ d, ∀ r' ∈ d,
        standardNameOf (rowKey r) = standardNameOf (rowKey r') →
          rowKey r = rowKey r') →
      (∀ r ∈ d, rowPol r = p → mappableKey (rowKey r) = true) →
      ((processData d p).1.map (fun e => e.2.count)).sum
          = d.countP (fun r => decide (rowPol r = p))) := by
  refine ⟨rfl, ?_, ?_, ?_⟩
  · show ((((aggregate d).foldl (projStep p) ([], 0, 0)).1).map
        (fun e => e.2.count)).sum ≤ d.countP (fun r => decide (rowPol r = p))
    have hle1 := foldl_projStep_sum_le p (aggregate d) ([], 0, 0) (by simp)
    have htot := foldl_projStep_totalReviews p (aggregate d) ([], 0, 0)
    have h00 : (([], 0, 0) : ProjState).2.2 = 0 := rfl
    have hle3 := sum_map_filter_le (fun e => mappableKey e.1)
      (fun e => lookupCount e.2.counts p) (aggregate d)
    have hcp := sum_counts_aggregate d p
    omega
  · intro hinj
    have hcounts := projFold_counts_of_inj d p hinj
    constructor
    · show (projFold d p).2.2
          = (((projFold d p).1).map (fun e => e.2.count)).sum
      rw [hcounts]
      unfold projFold
      rw [foldl_projStep_totalReviews]
      simp
    · show (projFold d p).2.1
          = (((projFold d p).1).map (fun e => e.2.count)).foldl max 0
      rw [hcounts]
      unfold projFold
      rw [foldl_projStep_maxCount]
  · intro hinj hmap
    have hcounts := projFold_counts_of_inj d p hinj
    have hnd := aggregate_keys_nodup d
    have hzero : ∀ e ∈ aggregate d, mappableKey e.1 = false →
        lookupCount e.2.counts p = 0 := by
      intro e he hm
      have hget := assocGet?_of_mem_nodup he hnd
      have hlc : aggCount (aggregate d) e.1 p = lookupCount e.2.counts p := by
        unfold aggCount
        rw [hget, Option.getD_some]
      rw [← hlc, aggCount_aggregate, List.countP_eq_zero]
      intro r hr hP
      rcases of_decide_eq_true hP with ⟨hk, hp⟩
      have := hmap r hr hp
      rw [hk, hm] at this
      cases this
    rw [show ((processData d p).1) = (projFold d p).1 from rfl, hcounts,
      sum_map_filter_eq _ _ _ hzero, sum_counts_aggregate]

/-- C5 witness: all four parts of the stats theorem at the collision-free
two-region polarity-3 dataset `[rowJal3, rowPue3]`, with the inner
no-collision and all-mappable hypotheses discharged concretely. -/
theorem c5_witness :
    (processData [rowJal3, rowPue3] 3).2.totalStates
        = (processData [rowJal3, rowPue3] 3).1.length ∧
    ((processData [rowJal3, rowPue3] 3).1.map (fun e => e.2.count)).sum
        ≤ [rowJal3, rowPue3].countP (fun r => decide (rowPol r = 3)) ∧
    ((processData [rowJal3, rowPue3] 3).2.totalReviews
        = ((processData [rowJal3, rowPue3] 3).1.map (fun e => e.2.count)).sum ∧
      (processData [rowJal3, rowPue3] 3).2.maxCount
        = ((processData [rowJal3, rowPue3] 3).1.map
            (fun e => e.2.count)).foldl max 0) ∧
    ((processData [rowJal3, rowPue3] 3).1.map (fun e => e.2.count)).sum
        = [rowJal3, rowPue3].countP (fun r => decide (rowPol r = 3)) := by
  have h := c5_session_stats [rowJal3, rowPue3] 3 (by decide)
  exact ⟨h.1, h.2.1, h.2.2.1 (by decide), h.2.2.2 (by decide) (by decide)⟩

/-- C5 counterexample: with the alias collision `Yucatan`/`Yucatán`, both
regions mappable and both rows at polarity 3, the code reports
`totalReviews = 2` while the single surviving view row sums to 1, and the
"equality when every region is mappable" clause fails (1 ≠ 2). -/
theorem c5_counterexample :
    (processData [rowYucRaw, rowYucAcc] 3).2.totalReviews = 2 ∧
    ((processData [rowYucRaw, rowYucAcc] 3).1.map (fun e => e.2.count)).sum = 1 ∧
    mappableKey (rowKey rowYucRaw) = true ∧
    mappableKey (rowKey rowYucAcc) = true ∧
    [rowYucRaw, rowYucAcc].countP (fun r => decide (rowPol r = 3)) = 2 := by
  refine ⟨by decide, by decide, by decide, by decide, by decide⟩

/-! ## Claim C8 -/

/-- C8: each rendered marker's visual intensity is `count / maxCount`
when `maxCount > 0` (0 otherwise), its fill opacity `0.3 + i * 0.7`, its
radius `10 + i * 20`; and in the spec's scenario of two regions with 10
and 5 reviews at the selected polarity, `maxCount = 10` and the marker
radii are `10 + 1 * 20 = 30` and `10 + 0.5 * 20 = 20` (opacities 1 and
0.65). -/
theorem c8_marker_geometry (data : List (String × ViewRow)) (maxCount : ℕ) :
    generateMarkers data maxCount
      = data.map (fun e =>
          { name := e.1
            coordinates := e.2.coordinates
            radius := 10
              + (if 0 < maxCount then (e.2.count : ℚ) / maxCount else 0) * 20
            opacity := 3 / 10
              + (if 0 < maxCount then (e.2.count : ℚ) / maxCount else 0)
                * (7 / 10) }) ∧
    (processData scenarioRows 3).2.maxCount = 10 ∧
    (processData scenarioRows 3).1.map (fun e => e.2.count) = [10, 5] ∧
    (generateMarkers (processData scenarioRows 3).1
        (processData scenarioRows 3).2.maxCount).map Marker.radius
      = [30, 20] ∧
    (generateMarkers (processData scenarioRows 3).1
        (processData scenarioRows 3).2.maxCount).map Marker.opacity
      = [1, 13 / 20] := by
  have hproc : (processData scenarioRows 3).1
      = [("Jalisco",
          { originalName := "Jalisco", count := 10, total := 10,
            percentage := "100.0",
            coordinates := (dec4 206597, dec4 (-1033496)),
            allPolarities := ⟨[(1, 0), (2, 0), (3, 10), (4, 0), (5, 0)], 10⟩ }),
         ("Puebla",
          { originalName := "Puebla", count := 5, total := 5,
            percentage := "100.0",
            coordinates := (dec4 190414, dec4 (-982063)),
            allPolarities := ⟨[(1, 0), (2, 0), (3, 5), (4, 0), (5, 0)], 5⟩ })] := by
    decide
  have hmax : (processData scenarioRows 3).2.maxCount = 10 := by decide
  refine ⟨rfl, hmax, by decide, ?_, ?_⟩
  · rw [hproc, hmax]
    norm_num [generateMarkers]
  · rw [hproc, hmax]
    norm_num [generateMarkers]
